import Mathlib

/-!
Verification of the jreader dictionary subsystem.

Shallow embedding of the Rust sources:
- `yomitan-format/src/kv_store/mod.rs` (GroupedJSON),
- `yomitan-format/src/kv_store/db.rs` (DictionaryDB),
- `yomitan-format/src/json_schema/{index,term_bank_v3,term_meta_bank_v3}.rs`,
- `jreader-service/src/dictionaries.rs` (registry, classification, lookup),
- `jreader-service/src/mecab.rs` (token analysis),
- `jreader-service/src/dict_db_scan_fs.rs` (scan / archive processing).

Modelling conventions:
- `serde_json::Value` is modelled by `JSONValue` with integer numbers (the
  values the modelled operations inspect are strings and arrays; numeric
  payloads are only carried around).
- Rust panics (`unwrap`, `expect`, out-of-bounds indexing) are modelled by
  `Option` results (`none` = panic) or an explicit `panic`-like constructor.
- `HashMap` contents are modelled as association lists; `HashSet` iteration
  (whose order is unspecified in Rust) is modelled as first-occurrence order.
  All stated properties are membership/content properties that do not depend
  on that order.
- `f64` fields (`score`, tag `order`/`score`, detailed frequency `value`)
  are modelled as `Int`; no modelled operation ever reads them arithmetically.
-/

namespace JReader

/-- Model of `serde_json::Value`. -/
inductive JSONValue where
  | null : JSONValue
  | bool (b : Bool) : JSONValue
  | num (n : Int) : JSONValue
  | str (s : String) : JSONValue
  | arr (l : List JSONValue) : JSONValue
deriving Repr

/-- `Value::get(0)`: first element of a JSON array, `none` otherwise. -/
def jsonGet0 : JSONValue → Option JSONValue
  | .arr (v :: _) => some v
  | _ => none

/-- `Value::as_str()`. -/
def jsonAsStr : JSONValue → Option String
  | .str s => some s
  | _ => none

/-- `value.get(0).and_then(|text| text.as_str())` from `GroupedJSON::from_json`. -/
def firstField (v : JSONValue) : Option String :=
  (jsonGet0 v).bind jsonAsStr

/-- Association-list lookup, first match wins.  This models both
`HashMap::get` (keys unique) and the KV store's
`SELECT json FROM term_entry WHERE key = ?` returning the first row. -/
def assocLookup {α : Type} : List (String × α) → String → Option α
  | [], _ => none
  | (k, v) :: rest, key => if k = key then some v else assocLookup rest key

/-- One step of `GroupedJSON::from_json`: append `v` to the group of `k`,
creating the group if absent (`HashMap` content as an association list). -/
def groupInsert (m : List (String × List JSONValue)) (k : String) (v : JSONValue) :
    List (String × List JSONValue) :=
  match m with
  | [] => [(k, [v])]
  | (k', vs) :: rest =>
    if k' = k then (k', vs ++ [v]) :: rest else (k', vs) :: groupInsert rest k v

/-- Loop of `GroupedJSON::from_json` over the input entries; `none` models the
`unwrap()` panic when an entry has no string first element. -/
def fromJsonAux : List (String × List JSONValue) → List JSONValue →
    Option (List (String × List JSONValue))
  | m, [] => some m
  | m, v :: vs =>
    match firstField v with
    | none => none
    | some k => fromJsonAux (groupInsert m k v) vs

/-- `GroupedJSON::from_json` (kv_store/mod.rs lines 73-84). -/
def fromJson (json : List JSONValue) : Option (List (String × List JSONValue)) :=
  fromJsonAux [] json

/-- `DictionaryDB::insert_all` on an existing row list: one row per grouped
key, in a single transaction (batching in 1000-tuples does not change the
resulting rows). -/
def insertAll (grouped : List (String × List JSONValue))
    (store : List (String × List JSONValue)) : List (String × List JSONValue) :=
  store ++ grouped

/-- `DictionaryDB::get`: first row whose key matches. -/
def storeGet (store : List (String × List JSONValue)) (key : String) :
    Option (List JSONValue) :=
  assocLookup store key

lemma assocLookup_groupInsert (m : List (String × List JSONValue)) (k : String)
    (v : JSONValue) (k' : String) :
    assocLookup (groupInsert m k v) k' =
      if k' = k then some ((assocLookup m k).getD [] ++ [v]) else assocLookup m k' := by
  induction m with
  | nil =>
    by_cases h : k' = k
    · subst h; simp [groupInsert, assocLookup]
    · simp [groupInsert, assocLookup, h, Ne.symm h]
  | cons p rest ih =>
    obtain ⟨a, vs⟩ := p
    by_cases hak : a = k
    · subst hak
      by_cases h : k' = a
      · subst h; simp [groupInsert, assocLookup]
      · simp [groupInsert, assocLookup, h, Ne.symm h]
    · by_cases h : k' = a
      · subst h
        simp [groupInsert, assocLookup, hak, Ne.symm hak]
      · simp [groupInsert, assocLookup, hak, h, Ne.symm h, ih]

lemma fromJsonAux_lookup (l : List JSONValue) (m g : List (String × List JSONValue))
    (h : fromJsonAux m l = some g) (k : String) :
    assocLookup g k =
      (if (l.filter (fun v => firstField v == some k)).isEmpty then assocLookup m k
       else some ((assocLookup m k).getD [] ++
         l.filter (fun v => firstField v == some k))) := by
  induction l generalizing m with
  | nil =>
    simp only [fromJsonAux, Option.some.injEq] at h
    subst h
    simp
  | cons v vs ih =>
    cases hf : firstField v with
    | none => simp [fromJsonAux, hf] at h
    | some kv =>
      simp only [fromJsonAux, hf] at h
      have ihh := ih (groupInsert m kv v) h
      by_cases hk : kv = k
      · subst hk
        rw [List.filter_cons_of_pos (by simp [hf])]
        rw [ihh, assocLookup_groupInsert, if_pos rfl]
        by_cases he : (vs.filter (fun v => firstField v == some kv)).isEmpty
        · rw [if_pos he]
          rw [List.isEmpty_iff] at he
          simp [he]
        · rw [if_neg he]
          simp [List.append_assoc]
      · rw [List.filter_cons_of_neg (by simp [hf, hk])]
        rw [ihh, assocLookup_groupInsert, if_neg (Ne.symm hk)]

/-- C1 helper: a key is produced by `fromJson` iff some entry has it as first
field, and then its group is the filter of the input. -/
lemma fromJson_lookup (entries : List JSONValue) (g : List (String × List JSONValue))
    (hg : fromJson entries = some g) (k : String) :
    assocLookup g k =
      (if (entries.filter (fun v => firstField v == some k)).isEmpty then none
       else some (entries.filter (fun v => firstField v == some k))) := by
  have := fromJsonAux_lookup entries [] g hg k
  simpa [assocLookup] using this

/-- C1. Grouping invariant: after `GroupedJSON::from_json` followed by
`DictionaryDB::insert_all` into a fresh store, the set of keys present in the
store equals the set of first-positional fields of the input entries, and the
payload stored under each key `k` is exactly the list of input entries whose
first field is `k`, in input order. -/
theorem grouping_invariant (entries : List JSONValue)
    (g : List (String × List JSONValue)) (hg : fromJson entries = some g) :
    (∀ k : String,
        (storeGet (insertAll g []) k).isSome ↔ k ∈ entries.filterMap firstField) ∧
    (∀ k : String, ∀ l : List JSONValue,
        storeGet (insertAll g []) k = some l →
          l = entries.filter (fun v => firstField v == some k)) := by
  have hbase : ∀ k, storeGet (insertAll g []) k = assocLookup g k := by
    intro k; simp [storeGet, insertAll]
  constructor
  · intro k
    rw [hbase, fromJson_lookup entries g hg k]
    by_cases he : (entries.filter (fun v => firstField v == some k)).isEmpty
    · simp only [if_pos he, Option.isSome_none, Bool.false_eq_true, false_iff]
      intro hmem
      rw [List.mem_filterMap] at hmem
      obtain ⟨v, hv, hfv⟩ := hmem
      rw [List.isEmpty_iff, List.filter_eq_nil_iff] at he
      exact absurd (by simp [hfv]) (he v hv)
    · simp only [if_neg he, Option.isSome_some, true_iff]
      rw [List.isEmpty_iff] at he
      obtain ⟨v, hv⟩ := List.exists_mem_of_ne_nil _ he
      have hv' := List.of_mem_filter hv
      rw [List.mem_filterMap]
      exact ⟨v, List.mem_of_mem_filter hv, by simpa using hv'⟩
  · intro k l hl
    rw [hbase, fromJson_lookup entries g hg k] at hl
    by_cases he : (entries.filter (fun v => firstField v == some k)).isEmpty
    · rw [if_pos he] at hl; exact absurd hl (by simp)
    · rw [if_neg he] at hl
      exact (Option.some.injEq _ _ ▸ hl).symm

/-- Witness for C1 at a concrete input: the two entries keyed `"da"` are stored
together in input order, obtained by applying `grouping_invariant`. -/
theorem grouping_invariant_witness :
    [JSONValue.arr [.str "da", .str "x"], .arr [.str "inu", .str "y"],
        .arr [.str "da", .str "z"]].filter
      (fun v => firstField v == some "da") =
      [JSONValue.arr [.str "da", .str "x"], .arr [.str "da", .str "z"]] :=
  ((grouping_invariant
      [JSONValue.arr [.str "da", .str "x"], .arr [.str "inu", .str "y"],
        .arr [.str "da", .str "z"]]
      [("da", [JSONValue.arr [.str "da", .str "x"], .arr [.str "da", .str "z"]]),
       ("inu", [JSONValue.arr [.str "inu", .str "y"]])]
      rfl).2 "da"
    [JSONValue.arr [.str "da", .str "x"], .arr [.str "da", .str "z"]] rfl).symm

/-! ### Kana utilities

Models of the external `wana_kana` crate functions used by
`dictionaries.rs` (`IsJapaneseStr::is_katakana`, `ConvertJapanese::to_hiragana`)
on full-width kana: katakana letters U+30A1..U+30F6 convert to hiragana by
subtracting 0x60; other characters are left unchanged. -/

/-- Character is in the katakana block (used by the all-katakana test). -/
def isKatakanaChar (c : Char) : Bool :=
  0x30A0 ≤ c.toNat && c.toNat ≤ 0x30FF

/-- Model of `wana_kana`'s `is_katakana` on a string: every char is katakana. -/
def isKatakanaStr (s : String) : Bool :=
  s.toList.all isKatakanaChar

/-- Katakana letter to the corresponding hiragana letter. -/
def toHiraganaChar (c : Char) : Char :=
  if 0x30A1 ≤ c.toNat ∧ c.toNat ≤ 0x30F6 then Char.ofNat (c.toNat - 0x60) else c

/-- Model of `wana_kana`'s `to_hiragana` for katakana input. -/
def toHiragana (s : String) : String :=
  String.mk (s.toList.map toHiraganaChar)

/-- Character is in the hiragana block (for the spec's "stored in hiragana"). -/
def isHiraganaChar (c : Char) : Bool :=
  0x3041 ≤ c.toNat && c.toNat ≤ 0x3096

/-- Every character of the string is hiragana. -/
def isHiraganaStr (s : String) : Bool :=
  s.toList.all isHiraganaChar

/-- Model of Rust `str::contains` (substring containment). -/
def listContainsSub (pat : List Char) : List Char → Bool
  | [] => pat.isEmpty
  | c :: rest => pat.isPrefixOf (c :: rest) || listContainsSub pat rest

/-- `s.contains(pat)` on strings. -/
def strContainsSub (s pat : String) : Bool :=
  listContainsSub pat.toList s.toList

/-! ### Schema model (`yomitan-format/src/json_schema`) -/

/-- `Definition` from term_bank_v3.rs (untagged union). -/
inductive DefinitionM where
  | Simple (s : String) : DefinitionM
  | Structured (defType : String) (content : Option JSONValue)
      (attributes : Option (List (String × JSONValue))) : DefinitionM
  | Deinflection (baseForm : String) (inflections : List String) : DefinitionM

/-- `TermEntry` from term_bank_v3.rs.  `score: f64` is modelled as `Int`
(it is never read by any modelled operation). -/
structure TermEntryM where
  text : String
  reading : String
  tags : Option (List String)
  ruleIdentifiers : String
  score : Int
  definitions : List DefinitionM
  sequenceNumber : Int
  termTags : Option (List String)

/-- `FrequencyDetails` from term_meta_bank_v3.rs (`value: f64` as `Int`;
only cloned or discarded by the modelled operations). -/
structure FrequencyDetailsM where
  value : Option Int
  displayValue : Option String
  reading : Option String
  frequency : Option JSONValue

/-- `FrequencyData` (untagged). -/
inductive FrequencyDataM where
  | SimpleNumber (n : Int) : FrequencyDataM
  | SimpleString (s : String) : FrequencyDataM
  | Detailed (d : FrequencyDetailsM) : FrequencyDataM

/-- `PitchInfo`. -/
structure PitchInfoM where
  position : Int
  nasal : Option JSONValue
  devoice : Option JSONValue
  tags : Option (List String)

/-- `PitchData`. -/
structure PitchDataM where
  reading : String
  pitches : List PitchInfoM

/-- `IPATranscription`. -/
structure IPATranscriptionM where
  ipa : String
  tags : List String

/-- `IPAData`. -/
structure IPADataM where
  reading : String
  transcriptions : List IPATranscriptionM

/-- `TermMetaData`. -/
inductive TermMetaDataM where
  | Frequency (f : FrequencyDataM) : TermMetaDataM
  | Pitch (p : PitchDataM) : TermMetaDataM
  | Ipa (i : IPADataM) : TermMetaDataM

/-- `TermMetaEntry` (3-tuple: term, kind, data). -/
structure TermMetaEntryM where
  term : String
  entryType : String
  data : TermMetaDataM

/-- `FrequencyUnion` from term_meta_bank_v3.rs. -/
structure FrequencyUnionM where
  value : Option Int
  displayValue : Option String
  reading : Option String

/-- `TermMetaEntry::maybe_frequency` (term_meta_bank_v3.rs lines 34-58). -/
def TermMetaEntryM.maybeFrequency (e : TermMetaEntryM) : Option FrequencyUnionM :=
  match e.data with
  | .Frequency (.SimpleNumber n) => some ⟨some n, none, none⟩
  | .Frequency (.SimpleString s) => some ⟨none, some s, none⟩
  | .Frequency (.Detailed d) => some ⟨none, d.displayValue, d.reading⟩
  | _ => none

/-- `FrequencyMode` from index.rs. -/
inductive FrequencyModeM where
  | OccurrenceBased : FrequencyModeM
  | RankBased : FrequencyModeM

/-- `TagMetaInfo` (`order`/`score` are `f64`, modelled as `Int`, never read). -/
structure TagMetaInfoM where
  category : Option String
  order : Option Int
  notes : Option String
  score : Option Int

/-- `DictionaryIndex` from index.rs. -/
structure DictionaryIndexM where
  title : String
  revision : String
  sequenced : Bool
  format : Option Int
  author : Option String
  isUpdatable : Bool
  indexUrl : Option String
  downloadUrl : Option String
  url : Option String
  description : Option String
  attribution : Option String
  sourceLanguage : Option String
  targetLanguage : Option String
  frequencyMode : Option FrequencyModeM
  tagMeta : Option (List (String × TagMetaInfoM))

/-- `is_valid_iso_language_code` (index.rs lines 74-76).  Rust checks the byte
length; for strings of ASCII-lowercase characters the byte length equals the
character count, and otherwise the `all is_ascii_lowercase` conjunct is false
in both the source and this model. -/
def isValidIsoLanguageCode (code : String) : Bool :=
  (code.length == 2 || code.length == 3) &&
    code.toList.all (fun c => 'a' ≤ c && c ≤ 'z')

/-- `DictionaryIndex::validate` (index.rs lines 43-71). -/
def DictionaryIndexM.validate (idx : DictionaryIndexM) : Except String Unit :=
  if (match idx.format with
      | some f => !([1, 2, 3].contains f)
      | none => false) then
    .error "Format must be 1, 2, or 3"
  else if (match idx.sourceLanguage with
      | some lang => !isValidIsoLanguageCode lang
      | none => false) then
    .error "Invalid source language code"
  else if (match idx.targetLanguage with
      | some lang => !isValidIsoLanguageCode lang
      | none => false) then
    .error "Invalid target language code"
  else if idx.isUpdatable && (idx.indexUrl.isNone || idx.downloadUrl.isNone) then
    .error "isUpdatable requires indexUrl and downloadUrl"
  else
    .ok ()

/-! ### Dictionary model and classification (`jreader-service/src/dictionaries.rs`)

A `DictionaryDB<SchemaType>` opened read-only is modelled as
`Option (List (String × payload))`: `none` when the db file is absent
(`open_ro` returned `None`), otherwise the list of rows in insertion order.
For the term and term-meta banks the payload is stored decoded (the JSON
round-trip through serde is modelled away); for banks that the modelled
operations only count, the payload stays a raw `JSONValue`. -/

/-- `YomitanDictionary` (dictionaries.rs lines 383-391). -/
structure YomitanDictionaryM where
  origin : String
  index : DictionaryIndexM
  kanjiBank : Option (List (String × JSONValue))
  kanjiMetaBank : Option (List (String × JSONValue))
  tagBank : Option (List (String × JSONValue))
  termBank : Option (List (String × List TermEntryM))
  termMetaBank : Option (List (String × List TermMetaEntryM))

/-- `DictionaryType`. -/
inductive DictionaryType where
  | Term : DictionaryType
  | Pitch : DictionaryType
  | Frequency : DictionaryType
  | Kanji : DictionaryType
deriving DecidableEq, Repr

/-- Result of `identify_dictionary_type`: `ok`, an `anyhow` error, or a panic
(`expect` on an empty first payload). -/
inductive ClassifyResult where
  | ok (t : DictionaryType) : ClassifyResult
  | err (msg : String) : ClassifyResult
  | cpanic : ClassifyResult
deriving DecidableEq, Repr

/-- `db.get_num_rows()` per bank, `None` when the bank file is absent. -/
def numRows {α : Type} : Option (List α) → Option Nat :=
  Option.map List.length

/-- The Rust comparison `bank_rows > Some(0)` on `Option<i64>`
(`None < Some _` in Rust's `Option` ordering, so `None > Some(0)` is false). -/
def optRowsGtZero : Option Nat → Bool
  | some n => 0 < n
  | none => false

/-- `YomitanDictionary::identify_dictionary_type` (dictionaries.rs 431-488). -/
def YomitanDictionaryM.identifyDictionaryType (d : YomitanDictionaryM) :
    ClassifyResult :=
  if optRowsGtZero (numRows d.kanjiBank) || strContainsSub d.index.revision "kanji" then
    .ok .Kanji
  else if optRowsGtZero (numRows d.termMetaBank) then
    match d.termMetaBank with
    | none => .cpanic
    | some rows =>
      match rows.head? with
      | some row =>
        match row.2.head? with
        | some firstEntry =>
          match firstEntry.data with
          | .Frequency _ => .ok .Frequency
          | .Pitch _ => .ok .Pitch
          | .Ipa _ => .err "(1) Unsupported dictionary type"
        | none => .cpanic
      | none => .err "Term meta bank is empty"
  else if optRowsGtZero (numRows d.termBank) then
    .ok .Term
  else
    .err "(2) Unsupported dictionary type"

/-- First decoded entry of the first row of the term-meta bank, as read by the
classification code (`get_first_row` + `first()`). -/
def firstMetaEntry (d : YomitanDictionaryM) : Option TermMetaEntryM :=
  match d.termMetaBank with
  | none => none
  | some rows =>
    match rows.head? with
    | some row => row.2.head?
    | none => none

/-- C2. Classification totality: `identify_dictionary_type` decides in order
kanji (row count or revision substring), then term-meta by the kind of the
first entry (`freq` ⇒ Frequency, `pitch` ⇒ Pitch, `ipa` ⇒ error), then term,
and errors when every table is empty or absent.  The hypothesis states that
stored payload lists are non-empty (the KV invariant), ruling out the
`first().expect` panic. -/
theorem identify_dictionary_type_spec (d : YomitanDictionaryM)
    (hwf : (d.termMetaBank.getD []).all (fun p => !p.2.isEmpty) = true) :
    ((optRowsGtZero (numRows d.kanjiBank) ||
        strContainsSub d.index.revision "kanji") = true →
      d.identifyDictionaryType = .ok .Kanji) ∧
    ((optRowsGtZero (numRows d.kanjiBank) ||
        strContainsSub d.index.revision "kanji") = false →
      optRowsGtZero (numRows d.termMetaBank) = true →
      ∃ e : TermMetaEntryM, firstMetaEntry d = some e ∧
        d.identifyDictionaryType =
          (match e.data with
           | .Frequency _ => .ok .Frequency
           | .Pitch _ => .ok .Pitch
           | .Ipa _ => .err "(1) Unsupported dictionary type")) ∧
    ((optRowsGtZero (numRows d.kanjiBank) ||
        strContainsSub d.index.revision "kanji") = false →
      optRowsGtZero (numRows d.termMetaBank) = false →
      optRowsGtZero (numRows d.termBank) = true →
      d.identifyDictionaryType = .ok .Term) ∧
    ((optRowsGtZero (numRows d.kanjiBank) ||
        strContainsSub d.index.revision "kanji") = false →
      optRowsGtZero (numRows d.termMetaBank) = false →
      optRowsGtZero (numRows d.termBank) = false →
      ∃ msg : String, d.identifyDictionaryType = .err msg) := by
  refine ⟨?_, ?_, ?_, ?_⟩
  · intro hk
    simp [YomitanDictionaryM.identifyDictionaryType, hk]
  · intro hk hm
    cases htm : d.termMetaBank with
    | none => rw [htm] at hm; simp [numRows, optRowsGtZero] at hm
    | some rows =>
      cases hrows : rows with
      | nil =>
        rw [htm, hrows] at hm; simp [numRows, optRowsGtZero] at hm
      | cons row rest =>
        cases hrow : row.2 with
        | nil =>
          rw [htm, hrows] at hwf
          simp only [Option.getD_some, List.all_cons, Bool.and_eq_true] at hwf
          rw [hrow] at hwf
          simp at hwf
        | cons e payloadRest =>
          refine ⟨e, ?_, ?_⟩
          · simp [firstMetaEntry, htm, hrows, hrow]
          · have hm' : optRowsGtZero (numRows (some (row :: rest))) = true := by
              simp [numRows, optRowsGtZero]
            simp only [YomitanDictionaryM.identifyDictionaryType, hk,
              Bool.false_eq_true, if_false, htm, hm', if_true, hrows, hrow,
              List.head?_cons]
  · intro hk hm ht
    simp [YomitanDictionaryM.identifyDictionaryType, hk, hm, ht]
  · intro hk hm ht
    exact ⟨"(2) Unsupported dictionary type",
      by simp [YomitanDictionaryM.identifyDictionaryType, hk, hm, ht]⟩

/-- Example index used by concrete dictionaries in witnesses. -/
def plainIndexEx (title revision : String) : DictionaryIndexM :=
  { title := title, revision := revision, sequenced := false, format := some 3,
    author := none, isUpdatable := false, indexUrl := none,
    downloadUrl := none, url := none, description := none, attribution := none,
    sourceLanguage := none, targetLanguage := none, frequencyMode := none,
    tagMeta := none }

/-- Example dictionary whose only content is one pitch term-meta row. -/
def pitchOnlyDictEx : YomitanDictionaryM :=
  { origin := "pitchdict", index := plainIndexEx "P" "v1",
    kanjiBank := none, kanjiMetaBank := none, tagBank := none,
    termBank := none,
    termMetaBank := some [("打ち込む",
      [⟨"打ち込む", "pitch",
        TermMetaDataM.Pitch ⟨"うちこむ", [⟨0, none, none, none⟩]⟩⟩])] }

/-- Witness for C2 at concrete dictionaries: a kanji-bank dictionary
classifies as Kanji (first conjunct), and a dictionary whose only content is
a pitch term-meta row classifies as Pitch (second conjunct). -/
theorem identify_dictionary_type_spec_witness :
    ({ origin := "kanjidic", index := plainIndexEx "K" "v1",
       kanjiBank := some [("打", JSONValue.null)], kanjiMetaBank := none,
       tagBank := none, termBank := none,
       termMetaBank := none } : YomitanDictionaryM).identifyDictionaryType =
      .ok .Kanji ∧
    (∃ e : TermMetaEntryM,
      firstMetaEntry pitchOnlyDictEx = some e ∧
        pitchOnlyDictEx.identifyDictionaryType =
          (match e.data with
           | .Frequency _ => .ok .Frequency
           | .Pitch _ => .ok .Pitch
           | .Ipa _ => .err "(1) Unsupported dictionary type")) :=
  ⟨(identify_dictionary_type_spec _ (by decide)).1 (by decide),
   (identify_dictionary_type_spec pitchOnlyDictEx (by decide)).2.1
     (by decide) (by decide)⟩

/-! ### Registry (`YomitanDictionaries`) -/

/-- `YomitanDictionaries` (dictionaries.rs lines 74-82).  The typed wrappers
`YomitanTermDictionary` etc. are newtypes around `YomitanDictionary` and are
elided; each bucket holds the wrapped dictionaries. -/
structure YomitanDictionariesM where
  terms : List YomitanDictionaryM
  pitch : List YomitanDictionaryM
  freq : List YomitanDictionaryM
  kanji : List YomitanDictionaryM

/-- Result of `register_dictionary`: the new registry, an error (the registry
is left unchanged), or a panic propagated from classification. -/
inductive RegisterResult where
  | ok (r : YomitanDictionariesM) : RegisterResult
  | rerr : RegisterResult
  | rpanic : RegisterResult

/-- `YomitanDictionaries::register_dictionary` (dictionaries.rs 158-186):
classify the dictionary, reject when some dictionary in the `terms` bucket
already has the same title and revision, else append to the bucket of the
classified type. -/
def registerDictionary (r : YomitanDictionariesM) (d : YomitanDictionaryM) :
    RegisterResult :=
  match d.identifyDictionaryType with
  | .cpanic => .rpanic
  | .err _ => .rerr
  | .ok t =>
    if r.terms.any (fun td =>
        td.index.title == d.index.title && td.index.revision == d.index.revision) then
      .rerr
    else
      .ok (match t with
        | .Term => { r with terms := r.terms ++ [d] }
        | .Pitch => { r with pitch := r.pitch ++ [d] }
        | .Frequency => { r with freq := r.freq ++ [d] }
        | .Kanji => { r with kanji := r.kanji ++ [d] })

/-! ### Term, pitch and frequency lookups -/

/-- `TokenFeature` (mecab.rs lines 5-27). -/
structure TokenFeature where
  surfaceForm : Option String
  pos : Option String
  posSubtype1 : Option String
  posSubtype2 : Option String
  posSubtype3 : Option String
  conjugationType : Option String
  conjugationForm : Option String
  dictionaryForm : Option String
  reading : Option String
  pronunciation : Option String
deriving DecidableEq, Repr

/-- `UserPreferences` fields read by `lookup` (user_preferences.rs).
`HashSet<String>` is modelled as a list queried by `contains`. -/
structure UserPreferencesM where
  termDisabledDictionaries : List String
  freqDisabledDictionaries : List String

/-- `DictionaryResult` (dictionaries.rs lines 39-45). -/
structure DictionaryResultM where
  title : String
  revision : String
  origin : String
  entries : List TermEntryM

/-- `YomitanTermDictionary::lookup_term`: `none` models the
`expect("Term bank not found")` panic; otherwise the decoded rows under the
key (deserialization of well-formed stored JSON is modelled away). -/
def lookupTermM (d : YomitanDictionaryM) (term : String) :
    Option (Option (List TermEntryM)) :=
  match d.termBank with
  | none => none
  | some store => some (assocLookup store term)

/-- Surface-form part of the per-token loop in `YomitanTermDictionary::lookup`
(dictionaries.rs lines 500-522): try the surface form; on a miss, when the
surface is all katakana, try its hiragana conversion. -/
def surfaceLookup (d : YomitanDictionaryM) (f : TokenFeature) :
    Option (List TermEntryM) :=
  match f.surfaceForm with
  | none => some []
  | some s =>
    match lookupTermM d s with
    | none => none
    | some (some entries) => some entries
    | some none =>
      if isKatakanaStr s then
        match lookupTermM d (toHiragana s) with
        | none => none
        | some (some entries) => some entries
        | some none => some []
      else some []

/-- Dictionary-form part of the per-token loop (dictionaries.rs lines
525-536): try the dictionary form when it differs from the surface form. -/
def dictFormLookup (d : YomitanDictionaryM) (f : TokenFeature) :
    Option (List TermEntryM) :=
  match f.dictionaryForm with
  | none => some []
  | some dictForm =>
    if some dictForm ≠ f.surfaceForm then
      match lookupTermM d dictForm with
      | none => none
      | some (some entries) => some entries
      | some none => some []
    else some []

/-- Entries contributed by one token feature, surface hits first. -/
def termLookupFeature (d : YomitanDictionaryM) (f : TokenFeature) :
    Option (List TermEntryM) :=
  match surfaceLookup d f with
  | none => none
  | some surfaceHits =>
    match dictFormLookup d f with
    | none => none
    | some dictHits => some (surfaceHits ++ dictHits)

/-- The full token loop of `YomitanTermDictionary::lookup`, extending the
result list per token in order. -/
def termLookupAll (d : YomitanDictionaryM) : List TokenFeature →
    Option (List TermEntryM)
  | [] => some []
  | f :: fs =>
    match termLookupFeature d f with
    | none => none
    | some hits =>
      match termLookupAll d fs with
      | none => none
      | some rest => some (hits ++ rest)

/-- `YomitanTermDictionary::lookup` (dictionaries.rs 493-553). -/
def termDictLookup (d : YomitanDictionaryM) (tokens : List TokenFeature) :
    Option DictionaryResultM :=
  (termLookupAll d tokens).map
    (fun entries => ⟨d.index.title, d.index.revision, d.origin, entries⟩)

/-- Scan of the decoded entries under a key in
`YomitanPitchDictionary::lookup` (dictionaries.rs 663-674): first entry whose
term matches and whose pitch payload's reading matches. -/
def pitchFind : List TermMetaEntryM → String → String → Option PitchDataM
  | [], _, _ => none
  | e :: es, term, reading =>
    if e.term == term then
      match e.data with
      | .Pitch p =>
        if p.reading == reading then some p else pitchFind es term reading
      | _ => pitchFind es term reading
    else pitchFind es term reading

/-- `YomitanPitchDictionary::lookup` (dictionaries.rs 655-679); the outer
`none` models the `expect("Term meta bank not found")` panic. -/
def pitchDictLookup (d : YomitanDictionaryM) (term reading : String) :
    Option (Option PitchDataM) :=
  match d.termMetaBank with
  | none => none
  | some store =>
    some (match assocLookup store term with
      | none => none
      | some entries => pitchFind entries term reading)

/-- `PitchAccent` (dictionaries.rs 681-686); `u8` fields as `Nat`. -/
structure PitchAccentM where
  reading : String
  position : Nat
  moraCount : Nat
deriving DecidableEq, Repr

/-- `PitchAccents::from(&PitchData)` (dictionaries.rs 691-707).  The `as u8`
casts truncate to the low byte; the redundant fourth comparison with `ょ` is
kept from the source. -/
def pitchAccentsFrom (p : PitchDataM) : List PitchAccentM :=
  p.pitches.map (fun pi =>
    { reading := p.reading
      position := (pi.position % 256).toNat
      moraCount :=
        (p.reading.toList.filter
          (fun c => c ≠ 'ょ' && c ≠ 'ゃ' && c ≠ 'ゅ' && c ≠ 'ょ')).length % 256 })

/-- `PitchResult` (dictionaries.rs 47-51). -/
structure PitchResultM where
  title : String
  pitchAccents : List PitchAccentM

/-- `FrequencyData` (dictionaries.rs 53-59). -/
structure FrequencyDataRes where
  term : String
  reading : Option String
  value : Option Int
  displayValue : Option String

/-- `HashMap::insert` on an association list (overwrite). -/
def assocInsert {α : Type} (m : List (String × α)) (k : String) (v : α) :
    List (String × α) :=
  match m with
  | [] => [(k, v)]
  | (k', v') :: rest =>
    if k' == k then (k', v) :: rest else (k', v') :: assocInsert rest k v

/-- `pitch_results.entry(term).or_insert(HashMap::new()).insert(reading, pr)`
(dictionaries.rs 263-272). -/
def pitchMapInsert (m : List (String × List (String × PitchResultM)))
    (term reading : String) (pr : PitchResultM) :
    List (String × List (String × PitchResultM)) :=
  assocInsert m term (assocInsert ((assocLookup m term).getD []) reading pr)

/-- The `(text, reading)` pairs collected from the gathered dictionary
results (dictionaries.rs 253-258).  The Rust `HashSet` is modelled as the
encounter-order list; duplicate pairs re-insert the same key with the same
value and do not change the resulting map. -/
def collectTermReadings (results : List DictionaryResultM) :
    List (String × String) :=
  results.flatMap (fun r => r.entries.map (fun e => (e.text, e.reading)))

/-- The pitch-join loop of `YomitanDictionaries::lookup` (dictionaries.rs
260-274): for each pair, query `self.pitch[0]`; `none` models the panic of
indexing an empty `pitch` bucket (or of a missing term-meta bank). -/
def pitchJoin (pitchDicts : List YomitanDictionaryM) :
    List (String × String) → List (String × List (String × PitchResultM)) →
    Option (List (String × List (String × PitchResultM)))
  | [], acc => some acc
  | (term, reading) :: rest, acc =>
    match pitchDicts with
    | [] => none
    | p0 :: _ =>
      match pitchDictLookup p0 term reading with
      | none => none
      | some none => pitchJoin pitchDicts rest acc
      | some (some pdata) =>
        pitchJoin pitchDicts rest
          (pitchMapInsert acc term reading
            ⟨p0.index.title, pitchAccentsFrom pdata⟩)

/-- `YomitanFrequencyDictionary::lookup_term`, `none` = missing-bank panic. -/
def lookupMetaM (d : YomitanDictionaryM) (term : String) :
    Option (Option (List TermMetaEntryM)) :=
  match d.termMetaBank with
  | none => none
  | some store => some (assocLookup store term)

/-- The per-term loop of `YomitanFrequencyDictionary::lookup_terms`
(dictionaries.rs 630-636). -/
def freqCollect (d : YomitanDictionaryM) : List String →
    Option (List TermMetaEntryM)
  | [] => some []
  | t :: ts =>
    match lookupMetaM d t with
    | none => none
    | some none => freqCollect d ts
    | some (some entries) => (freqCollect d ts).map (entries ++ ·)

/-- `YomitanFrequencyDictionary::lookup_terms` (dictionaries.rs 617-637): the
distinct dictionary forms of the tokens (the `HashSet` is modelled as
first-occurrence order), each queried against the term-meta store. -/
def freqLookupTerms (d : YomitanDictionaryM) (tokens : List TokenFeature) :
    Option (List TermMetaEntryM) :=
  freqCollect d ((tokens.filterMap TokenFeature.dictionaryForm).eraseDups)

/-- The `FrequencyData` materialization in `YomitanDictionaries::lookup`
(dictionaries.rs 289-304). -/
def materializeFreq (entries : List TermMetaEntryM) : List FrequencyDataRes :=
  entries.filterMap (fun e =>
    (e.maybeFrequency).map (fun u =>
      { term := e.term, reading := u.reading, value := u.value,
        displayValue := u.displayValue }))

/-- The frequency loop of `YomitanDictionaries::lookup` (dictionaries.rs
278-318), keyed by `"title#revision"`. -/
def freqJoin (prefs : UserPreferencesM) (tokens : List TokenFeature) :
    List YomitanDictionaryM → List (String × List FrequencyDataRes) →
    Option (List (String × List FrequencyDataRes))
  | [], acc => some acc
  | fd :: rest, acc =>
    if !(prefs.freqDisabledDictionaries.contains
        (fd.index.title ++ "#" ++ fd.index.revision)) then
      match freqLookupTerms fd tokens with
      | none => none
      | some entries =>
        freqJoin prefs tokens rest
          (assocInsert acc (fd.index.title ++ "#" ++ fd.index.revision)
            (materializeFreq entries))
    else freqJoin prefs tokens rest acc

/-- `LookupResult` (dictionaries.rs 32-37); the two `HashMap`s as
association lists. -/
structure LookupResultM where
  dict : List DictionaryResultM
  pitch : List (String × List (String × PitchResultM))
  freq : List (String × List FrequencyDataRes)

/-- The term fan-out of `YomitanDictionaries::lookup` (dictionaries.rs
194-248): every enabled term dictionary is queried; results of dictionaries
whose task panicked are skipped (the `JoinSet` join error is caught), and
empty results are discarded.  Arrival order of the concurrent tasks is
unspecified in the source; it is modelled as registry order, and no stated
property depends on it. -/
def enabledDictResults (r : YomitanDictionariesM) (tokens : List TokenFeature)
    (prefs : UserPreferencesM) : List DictionaryResultM :=
  r.terms.filterMap (fun d =>
    if !(prefs.termDisabledDictionaries.contains
        (d.index.title ++ "#" ++ d.index.revision)) then
      match termDictLookup d tokens with
      | none => none
      | some res => if res.entries.isEmpty then none else some res
    else none)

/-- `YomitanDictionaries::lookup` (dictionaries.rs 188-327).  `none` models a
panic: the tracing-span field that indexes `self.terms[0]` when the span is
recorded, the `self.pitch[0]` indexing inside the pitch join, or a missing
bank behind an `expect`. -/
def dictionariesLookup (r : YomitanDictionariesM) (tokens : List TokenFeature)
    (prefs : UserPreferencesM) : Option LookupResultM :=
  match r.terms with
  | [] => none
  | _ :: _ =>
    let dictResults := enabledDictResults r tokens prefs
    match pitchJoin r.pitch (collectTermReadings dictResults) [] with
    | none => none
    | some pitchResults =>
      match freqJoin prefs tokens r.freq [] with
      | none => none
      | some freqResults => some ⟨dictResults, pitchResults, freqResults⟩

/-! ### C3: registry uniqueness -/

/-- Example term entry. -/
def termEntryEx : TermEntryM :=
  ⟨"打", "だ", some ["n"], "n", 1, [DefinitionM.Simple "da def"], 1, some ["E1"]⟩

/-- Example term dictionary titled `"T"`, revision `"v1"`. -/
def termDictEx : YomitanDictionaryM :=
  { origin := "test", index := plainIndexEx "T" "v1",
    kanjiBank := none, kanjiMetaBank := none, tagBank := none,
    termBank := some [("打", [termEntryEx])],
    termMetaBank := none }

/-- C3 counterexample: registering the same Pitch dictionary twice starting
from the empty registry succeeds both times — the duplicate check scans only
the Term bucket — leaving two registered dictionaries with the identical
(title, revision) pair `("P", "v1")`. -/
theorem register_dictionary_counterexample :
    registerDictionary ⟨[], [], [], []⟩ pitchOnlyDictEx =
      .ok ⟨[], [pitchOnlyDictEx], [], []⟩ ∧
    registerDictionary ⟨[], [pitchOnlyDictEx], [], []⟩ pitchOnlyDictEx =
      .ok ⟨[], [pitchOnlyDictEx, pitchOnlyDictEx], [], []⟩ ∧
    [pitchOnlyDictEx, pitchOnlyDictEx].map
        (fun d => (d.index.title, d.index.revision)) =
      [("P", "v1"), ("P", "v1")] :=
  ⟨rfl, rfl, rfl⟩

/-- C3 amended: the duplicate check of `register_dictionary` consults only the
Term bucket.  Starting from a registry whose Term bucket has pairwise
distinct (title, revision), any successful registration keeps the Term
bucket duplicate-free, and a dictionary whose (title, revision) is already
present in the Term bucket is never registered.  Other buckets can acquire
duplicates (see the counterexample). -/
theorem register_dictionary_term_bucket_uniqueness
    (r : YomitanDictionariesM) (d : YomitanDictionaryM)
    (hinv : r.terms.Pairwise (fun a b =>
      ¬(a.index.title = b.index.title ∧ a.index.revision = b.index.revision))) :
    (∀ r' : YomitanDictionariesM, registerDictionary r d = .ok r' →
      r'.terms.Pairwise (fun a b =>
        ¬(a.index.title = b.index.title ∧ a.index.revision = b.index.revision))) ∧
    (r.terms.any (fun td =>
        td.index.title == d.index.title &&
          td.index.revision == d.index.revision) = true →
      ∀ r' : YomitanDictionariesM, registerDictionary r d ≠ .ok r') := by
  constructor
  · intro r' h
    cases hc : d.identifyDictionaryType with
    | cpanic => simp [registerDictionary, hc] at h
    | err m => simp [registerDictionary, hc] at h
    | ok t =>
      simp only [registerDictionary, hc] at h
      by_cases hdup : r.terms.any (fun td =>
          td.index.title == d.index.title &&
            td.index.revision == d.index.revision) = true
      · rw [if_pos hdup] at h; exact absurd h (by simp)
      · rw [if_neg hdup] at h
        have hnotmem : ∀ a ∈ r.terms,
            ¬(a.index.title = d.index.title ∧
              a.index.revision = d.index.revision) := by
          intro a ha hcontra
          exact hdup (List.any_eq_true.mpr
            ⟨a, ha, by simp [hcontra.1, hcontra.2]⟩)
        cases t with
        | Term =>
          have hr' : { r with terms := r.terms ++ [d] } = r' :=
            RegisterResult.ok.inj h
          rw [← hr']
          refine List.pairwise_append.mpr ⟨hinv, by simp, ?_⟩
          intro a ha b hb
          rw [List.mem_singleton] at hb
          subst hb
          exact hnotmem a ha
        | Pitch =>
          have hr' : { r with pitch := r.pitch ++ [d] } = r' :=
            RegisterResult.ok.inj h
          rw [← hr']
          exact hinv
        | Frequency =>
          have hr' : { r with freq := r.freq ++ [d] } = r' :=
            RegisterResult.ok.inj h
          rw [← hr']
          exact hinv
        | Kanji =>
          have hr' : { r with kanji := r.kanji ++ [d] } = r' :=
            RegisterResult.ok.inj h
          rw [← hr']
          exact hinv
  · intro hdup r' h
    cases hc : d.identifyDictionaryType with
    | cpanic => simp [registerDictionary, hc] at h
    | err m => simp [registerDictionary, hc] at h
    | ok t =>
      simp only [registerDictionary, hc] at h
      rw [if_pos hdup] at h
      exact absurd h (by simp)

/-- Witness for C3 (amended) at a concrete registry: a second Term
dictionary with the (title, revision) already in the Term bucket is not
registered. -/
theorem register_dictionary_term_bucket_uniqueness_witness :
    registerDictionary ⟨[termDictEx], [], [], []⟩ termDictEx ≠
      .ok ⟨[termDictEx, termDictEx], [], [], []⟩ :=
  (register_dictionary_term_bucket_uniqueness ⟨[termDictEx], [], [], []⟩
      termDictEx (by simp)).2 rfl ⟨[termDictEx, termDictEx], [], [], []⟩

/-! ### C4: pitch join -/

lemma assocLookup_mem {α : Type} (m : List (String × α)) (k : String) (v : α)
    (h : assocLookup m k = some v) : (k, v) ∈ m := by
  induction m with
  | nil => simp [assocLookup] at h
  | cons p rest ih =>
    obtain ⟨k', v'⟩ := p
    simp only [assocLookup] at h
    by_cases hk : k' = k
    · subst hk
      rw [if_pos rfl] at h
      injection h with hv
      subst hv
      exact List.mem_cons_self _ _
    · rw [if_neg hk] at h
      exact List.mem_cons_of_mem _ (ih h)

lemma mem_assocInsert {α : Type} (m : List (String × α)) (k : String) (v : α)
    (p : String × α) (h : p ∈ assocInsert m k v) : p = (k, v) ∨ p ∈ m := by
  induction m with
  | nil => simp [assocInsert] at h; exact Or.inl h
  | cons q rest ih =>
    obtain ⟨k', v'⟩ := q
    by_cases hk : (k' == k) = true
    · rw [beq_iff_eq] at hk
      subst hk
      simp only [assocInsert, beq_self_eq_true, if_pos] at h
      rcases List.mem_cons.mp h with h1 | h1
      · exact Or.inl h1
      · exact Or.inr (List.mem_cons_of_mem _ h1)
    · simp only [assocInsert, if_neg hk] at h
      rcases List.mem_cons.mp h with h1 | h1
      · exact Or.inr (h1 ▸ List.mem_cons_self _ _)
      · rcases ih h1 with h2 | h2
        · exact Or.inl h2
        · exact Or.inr (List.mem_cons_of_mem _ h2)

lemma pitchJoin_mem (pd : List YomitanDictionaryM)
    (pairs : List (String × String))
    (acc m : List (String × List (String × PitchResultM)))
    (h : pitchJoin pd pairs acc = some m) (t : String)
    (inner : List (String × PitchResultM)) (h1 : (t, inner) ∈ m)
    (rd : String) (x : PitchResultM) (h2 : (rd, x) ∈ inner) :
    (t, rd) ∈ pairs ∨
      ∃ inner0 : List (String × PitchResultM),
        (t, inner0) ∈ acc ∧ (rd, x) ∈ inner0 := by
  induction pairs generalizing acc inner with
  | nil =>
    simp only [pitchJoin, Option.some.injEq] at h
    subst h
    exact Or.inr ⟨inner, h1, h2⟩
  | cons pr rest ih =>
    obtain ⟨term, reading⟩ := pr
    cases hpd : pd with
    | nil => rw [hpd] at h; simp [pitchJoin] at h
    | cons p0 pdRest =>
      rw [hpd] at h
      simp only [pitchJoin] at h
      cases hpl : pitchDictLookup p0 term reading with
      | none => rw [hpl] at h; exact absurd h (by simp)
      | some inres =>
        rw [hpl] at h
        cases inres with
        | none =>
          rw [← hpd] at h
          rcases ih acc h inner h1 h2 with hmem | hacc
          · exact Or.inl (List.mem_cons_of_mem _ hmem)
          · exact Or.inr hacc
        | some pdata =>
          rw [← hpd] at h
          rcases ih _ h inner h1 h2 with hmem | hacc
          · exact Or.inl (List.mem_cons_of_mem _ hmem)
          · obtain ⟨inner0, hin0, hrd0⟩ := hacc
            unfold pitchMapInsert at hin0
            rcases mem_assocInsert _ _ _ _ hin0 with heq | hin1
            · have ht : t = term := congrArg Prod.fst heq
              have hinner0 : inner0 =
                  assocInsert ((assocLookup acc term).getD []) reading
                    ⟨p0.index.title, pitchAccentsFrom pdata⟩ :=
                congrArg Prod.snd heq
              rw [hinner0] at hrd0
              rcases mem_assocInsert _ _ _ _ hrd0 with heq2 | hin2
              · have hrd : rd = reading := congrArg Prod.fst heq2
                exact Or.inl (by rw [ht, hrd]; exact List.mem_cons_self _ _)
              · cases hal : assocLookup acc term with
                | none => rw [hal] at hin2; simp at hin2
                | some inner1 =>
                  rw [hal] at hin2
                  exact Or.inr ⟨inner1,
                    ht ▸ assocLookup_mem acc term inner1 hal, hin2⟩
            · exact Or.inr ⟨inner0, hin1, hrd0⟩

/-- C4 amended: every `(text, reading)` key of the pitch map in a completed
lookup equals — verbatim, with no hiragana normalization — the `(text,
reading)` of at least one term entry in the returned dictionary results. -/
theorem pitch_keys_from_term_entries (r : YomitanDictionariesM)
    (tokens : List TokenFeature) (prefs : UserPreferencesM)
    (res : LookupResultM) (h : dictionariesLookup r tokens prefs = some res)
    (t : String) (inner : List (String × PitchResultM))
    (h1 : (t, inner) ∈ res.pitch) (rd : String) (x : PitchResultM)
    (h2 : (rd, x) ∈ inner) :
    ∃ dres ∈ res.dict, ∃ e ∈ dres.entries, e.text = t ∧ e.reading = rd := by
  unfold dictionariesLookup at h
  cases hterms : r.terms with
  | nil => rw [hterms] at h; exact absurd h (by simp)
  | cons d0 ds =>
    rw [hterms] at h
    simp only at h
    cases hpj : pitchJoin r.pitch
        (collectTermReadings (enabledDictResults r tokens prefs)) [] with
    | none => rw [hpj] at h; exact absurd h (by simp)
    | some pres =>
      rw [hpj] at h
      cases hfj : freqJoin prefs tokens r.freq [] with
      | none => rw [hfj] at h; exact absurd h (by simp)
      | some fres =>
        rw [hfj] at h
        have hres : res = ⟨enabledDictResults r tokens prefs, pres, fres⟩ :=
          (Option.some.injEq _ _ ▸ h).symm
        subst hres
        rcases pitchJoin_mem r.pitch _ [] pres hpj t inner h1 rd x h2 with
          hmem | hacc
        · unfold collectTermReadings at hmem
          rw [List.mem_flatMap] at hmem
          obtain ⟨dres, hdres, hpair⟩ := hmem
          rw [List.mem_map] at hpair
          obtain ⟨e, he, heq⟩ := hpair
          exact ⟨dres, hdres, e, he,
            congrArg Prod.fst heq, congrArg Prod.snd heq⟩
        · obtain ⟨inner0, hin0, _⟩ := hacc
          exact absurd hin0 (by simp)

/-- Example all-katakana term entry (text and reading `"ダ"`). -/
def kataEntryEx : TermEntryM :=
  ⟨"ダ", "ダ", none, "", 1, [DefinitionM.Simple "kata def"], 1, none⟩

/-- Example term dictionary storing `kataEntryEx` under key `"ダ"`. -/
def kataTermDictEx : YomitanDictionaryM :=
  { origin := "kata", index := plainIndexEx "KT" "v1",
    kanjiBank := none, kanjiMetaBank := none, tagBank := none,
    termBank := some [("ダ", [kataEntryEx])],
    termMetaBank := none }

/-- Example pitch dictionary whose payload reading is the katakana `"ダ"`. -/
def kataPitchDictEx : YomitanDictionaryM :=
  { origin := "katapitch", index := plainIndexEx "KP" "v1",
    kanjiBank := none, kanjiMetaBank := none, tagBank := none,
    termBank := none,
    termMetaBank := some [("ダ",
      [⟨"ダ", "pitch",
        TermMetaDataM.Pitch ⟨"ダ", [⟨0, none, none, none⟩]⟩⟩])] }

/-- Example token whose surface and dictionary form are `"ダ"`. -/
def kataTokEx : TokenFeature :=
  ⟨some "ダ", none, none, none, none, none, none, some "ダ", none, none⟩

/-- C4 counterexample: a lookup whose term entry has the katakana reading
`"ダ"` produces a pitch map keyed by the katakana reading, and the stored
`PitchAccent.reading` is also katakana — no hiragana normalization happens
anywhere in the join. -/
theorem pitch_join_counterexample :
    dictionariesLookup ⟨[kataTermDictEx], [kataPitchDictEx], [], []⟩
        [kataTokEx] ⟨[], []⟩ =
      some ⟨[⟨"KT", "v1", "kata", [kataEntryEx]⟩],
        [("ダ", [("ダ", ⟨"KP", [⟨"ダ", 0, 1⟩]⟩)])], []⟩ ∧
    isHiraganaStr "ダ" = false :=
  ⟨rfl, rfl⟩

/-- Witness for C4 (amended) at the concrete lookup of the counterexample:
the katakana pitch-map key `("ダ", "ダ")` is the (text, reading) of a
returned term entry. -/
theorem pitch_keys_from_term_entries_witness :
    ∃ dres ∈ ([⟨"KT", "v1", "kata", [kataEntryEx]⟩] : List DictionaryResultM),
      ∃ e ∈ dres.entries, e.text = "ダ" ∧ e.reading = "ダ" :=
  pitch_keys_from_term_entries ⟨[kataTermDictEx], [kataPitchDictEx], [], []⟩
    [kataTokEx] ⟨[], []⟩
    ⟨[⟨"KT", "v1", "kata", [kataEntryEx]⟩],
      [("ダ", [("ダ", ⟨"KP", [⟨"ダ", 0, 1⟩]⟩)])], []⟩
    rfl "ダ" [("ダ", ⟨"KP", [⟨"ダ", 0, 1⟩]⟩)] (by simp) "ダ"
    ⟨"KP", [⟨"ダ", 0, 1⟩]⟩ (by simp)

/-! ### C5: katakana fallback -/

/-- Example hiragana term entry (text and reading `"だ"`). -/
def hiraEntryEx : TermEntryM :=
  ⟨"だ", "だ", none, "", 1, [DefinitionM.Simple "hira def"], 2, none⟩

/-- Example term dictionary storing both `"ダ"` and its hiragana form
`"だ"`. -/
def kataBothDictEx : YomitanDictionaryM :=
  { origin := "kh", index := plainIndexEx "KH" "v1",
    kanjiBank := none, kanjiMetaBank := none, tagBank := none,
    termBank := some [("ダ", [kataEntryEx]), ("だ", [hiraEntryEx])],
    termMetaBank := none }

/-- Example term dictionary storing only the hiragana form `"だ"`. -/
def hiraOnlyDictEx : YomitanDictionaryM :=
  { origin := "ho", index := plainIndexEx "HO" "v1",
    kanjiBank := none, kanjiMetaBank := none, tagBank := none,
    termBank := some [("だ", [hiraEntryEx])],
    termMetaBank := none }

/-- C5 amended: for an all-katakana surface `s` (token whose dictionary form
equals the surface), (a) when the store holds `s` the lookup returns exactly
the directly stored entries — the hiragana fallback is not consulted — and
(b) when the store misses `s` but holds its hiragana form, the lookup
returns the entries stored under the hiragana form. -/
theorem katakana_lookup_behavior (d : YomitanDictionaryM)
    (store : List (String × List TermEntryM)) (s : String) (tok : TokenFeature)
    (hbank : d.termBank = some store) (hsurf : tok.surfaceForm = some s)
    (hdict : tok.dictionaryForm = some s) :
    (∀ es : List TermEntryM, assocLookup store s = some es →
      termDictLookup d [tok] =
        some ⟨d.index.title, d.index.revision, d.origin, es⟩) ∧
    (isKatakanaStr s = true → assocLookup store s = none →
      ∀ es : List TermEntryM, assocLookup store (toHiragana s) = some es →
        termDictLookup d [tok] =
          some ⟨d.index.title, d.index.revision, d.origin, es⟩) := by
  constructor
  · intro es hes
    simp [termDictLookup, termLookupAll, termLookupFeature, surfaceLookup,
      dictFormLookup, lookupTermM, hbank, hsurf, hdict, hes]
  · intro hkata hmiss es hes
    simp [termDictLookup, termLookupAll, termLookupFeature, surfaceLookup,
      dictFormLookup, lookupTermM, hbank, hsurf, hdict, hmiss, hkata, hes]

/-- C5 counterexample: the store holds both the katakana surface `"ダ"` and
its hiragana form `"だ"`, but the lookup returns only the entries stored
under `"ダ"` — the fallback lookup is never attempted on a direct hit, so
the result is not "direct entries followed by fallback entries". -/
theorem katakana_fallback_counterexample :
    termDictLookup kataBothDictEx [kataTokEx] =
      some ⟨"KH", "v1", "kh", [kataEntryEx]⟩ ∧
    assocLookup [("ダ", [kataEntryEx]), ("だ", [hiraEntryEx])] "だ" =
      some [hiraEntryEx] ∧
    ([kataEntryEx] : List TermEntryM) ≠ [kataEntryEx, hiraEntryEx] :=
  ⟨rfl, rfl, by intro h; simpa using congrArg List.length h⟩

/-- Witness for C5 (amended) at a concrete store holding only the hiragana
form: the all-katakana surface `"ダ"` falls back to `"だ"`. -/
theorem katakana_lookup_behavior_witness :
    termDictLookup hiraOnlyDictEx [kataTokEx] =
      some ⟨"HO", "v1", "ho", [hiraEntryEx]⟩ :=
  (katakana_lookup_behavior hiraOnlyDictEx [("だ", [hiraEntryEx])] "ダ"
      kataTokEx rfl rfl rfl).2 rfl rfl [hiraEntryEx] rfl

/-! ### C9: lookup panic behavior -/

lemma freqCollect_isSome (d : YomitanDictionaryM)
    (h : d.termMetaBank.isSome = true) (ts : List String) :
    (freqCollect d ts).isSome = true := by
  induction ts with
  | nil => simp [freqCollect]
  | cons t rest ih =>
    cases hb : d.termMetaBank with
    | none => rw [hb] at h; simp at h
    | some store =>
      simp only [freqCollect, lookupMetaM, hb]
      cases assocLookup store t with
      | none => exact ih
      | some entries => simpa using ih

lemma freqJoin_isSome (prefs : UserPreferencesM) (tokens : List TokenFeature)
    (fds : List YomitanDictionaryM)
    (hf : ∀ fd ∈ fds, fd.termMetaBank.isSome = true)
    (acc : List (String × List FrequencyDataRes)) :
    (freqJoin prefs tokens fds acc).isSome = true := by
  induction fds generalizing acc with
  | nil => simp [freqJoin]
  | cons fd rest ih =>
    have hfd : fd.termMetaBank.isSome = true := hf fd (List.mem_cons_self _ _)
    have hrest : ∀ x ∈ rest, x.termMetaBank.isSome = true := fun x hx =>
      hf x (List.mem_cons_of_mem _ hx)
    simp only [freqJoin]
    by_cases hdis : (prefs.freqDisabledDictionaries.contains
        (fd.index.title ++ "#" ++ fd.index.revision)) = true
    · simp only [hdis, Bool.not_true, Bool.false_eq_true, if_false]
      exact ih hrest acc
    · rw [Bool.not_eq_true] at hdis
      simp only [hdis, Bool.not_false, if_true]
      cases hlt : freqLookupTerms fd tokens with
      | none =>
        have := freqCollect_isSome fd hfd
          ((tokens.filterMap TokenFeature.dictionaryForm).eraseDups)
        rw [freqLookupTerms] at hlt
        rw [hlt] at this
        simp at this
      | some entries => exact ih hrest _

/-- C9 amended: with at least one Term dictionary registered (the tracing
span reads `terms[0]`), an empty Pitch bucket and frequency dictionaries
whose term-meta banks exist, `lookup` panics (indexes `self.pitch[0]` out of
bounds) exactly when the term fan-out produced at least one (text, reading)
pair; when it produced none, `lookup` completes normally — with an empty
pitch map — rather than panicking. -/
lemma dictionariesLookup_cons (r : YomitanDictionariesM)
    (tokens : List TokenFeature) (prefs : UserPreferencesM)
    (hterm : r.terms ≠ []) :
    dictionariesLookup r tokens prefs =
      (match pitchJoin r.pitch
          (collectTermReadings (enabledDictResults r tokens prefs)) [] with
       | none => none
       | some pres =>
         match freqJoin prefs tokens r.freq [] with
         | none => none
         | some fres =>
           some ⟨enabledDictResults r tokens prefs, pres, fres⟩) := by
  unfold dictionariesLookup
  cases hterms : r.terms with
  | nil => exact absurd hterms hterm
  | cons d0 ds => rfl

theorem lookup_empty_pitch_behavior (r : YomitanDictionariesM)
    (tokens : List TokenFeature) (prefs : UserPreferencesM)
    (hterm : r.terms ≠ []) (hpitch : r.pitch = [])
    (hf : ∀ fd ∈ r.freq, fd.termMetaBank.isSome = true) :
    (dictionariesLookup r tokens prefs = none ↔
      collectTermReadings (enabledDictResults r tokens prefs) ≠ []) := by
  rw [dictionariesLookup_cons r tokens prefs hterm, hpitch]
  cases hpairs : collectTermReadings (enabledDictResults r tokens prefs) with
  | nil =>
    simp only [pitchJoin]
    cases hfj : freqJoin prefs tokens r.freq [] with
    | none =>
      have := freqJoin_isSome prefs tokens r.freq hf []
      rw [hfj] at this
      simp at this
    | some fres => simp
  | cons p rest =>
    simp [pitchJoin]

/-- C9 counterexample: a registry with one Term dictionary and an empty
Pitch bucket, looked up with a token found nowhere, completes and returns a
result with an empty pitch map — it does not panic and does not error. -/
theorem lookup_empty_pitch_counterexample :
    dictionariesLookup ⟨[termDictEx], [], [], []⟩
        [⟨some "X", none, none, none, none, none, none, some "X", none, none⟩]
        ⟨[], []⟩ =
      some ⟨[], [], []⟩ :=
  rfl

/-- Witness for C9 (amended): with an empty Pitch bucket and a token that is
found in the Term dictionary, the lookup does panic. -/
theorem lookup_empty_pitch_behavior_witness :
    dictionariesLookup ⟨[kataTermDictEx], [], [], []⟩ [kataTokEx] ⟨[], []⟩ =
      none :=
  (lookup_empty_pitch_behavior ⟨[kataTermDictEx], [], [], []⟩ [kataTokEx]
      ⟨[], []⟩ (by simp) rfl (by simp)).2 (by decide)

/-! ### C10: frequency materialization -/

/-- C10. Every `FrequencyData` produced by the frequency materialization of
`lookup` comes from an entry of the queried term-meta payloads: a
`SimpleNumber n` payload yields `value = some n` and nothing else; a
`SimpleString s` payload yields `display_value = some s` with `value = none`;
a `Detailed` payload always yields `value = none` (the payload's `value` and
`frequency` fields are discarded) carrying over only `display_value` and
`reading`. -/
theorem frequency_materialization (l : List TermMetaEntryM)
    (f : FrequencyDataRes) (hf : f ∈ materializeFreq l) :
    ∃ e ∈ l, e.term = f.term ∧
      ((∃ n : Int, e.data = .Frequency (.SimpleNumber n) ∧ f.value = some n ∧
          f.displayValue = none ∧ f.reading = none) ∨
       (∃ s : String, e.data = .Frequency (.SimpleString s) ∧ f.value = none ∧
          f.displayValue = some s ∧ f.reading = none) ∨
       (∃ det : FrequencyDetailsM, e.data = .Frequency (.Detailed det) ∧
          f.value = none ∧ f.displayValue = det.displayValue ∧
          f.reading = det.reading)) := by
  unfold materializeFreq at hf
  rw [List.mem_filterMap] at hf
  obtain ⟨e, he, hmap⟩ := hf
  refine ⟨e, he, ?_⟩
  cases hd : e.data with
  | Frequency fd =>
    cases fd with
    | SimpleNumber n =>
      simp only [TermMetaEntryM.maybeFrequency, hd] at hmap
      rw [Option.map_some'] at hmap
      simp only [Option.some.injEq] at hmap
      subst hmap
      exact ⟨rfl, Or.inl ⟨n, rfl, rfl, rfl, rfl⟩⟩
    | SimpleString s =>
      simp only [TermMetaEntryM.maybeFrequency, hd] at hmap
      rw [Option.map_some'] at hmap
      simp only [Option.some.injEq] at hmap
      subst hmap
      exact ⟨rfl, Or.inr (Or.inl ⟨s, rfl, rfl, rfl, rfl⟩)⟩
    | Detailed det =>
      simp only [TermMetaEntryM.maybeFrequency, hd] at hmap
      rw [Option.map_some'] at hmap
      simp only [Option.some.injEq] at hmap
      subst hmap
      exact ⟨rfl, Or.inr (Or.inr ⟨det, rfl, rfl, rfl, rfl⟩)⟩
  | Pitch p =>
    simp [TermMetaEntryM.maybeFrequency, hd] at hmap
  | Ipa i =>
    simp [TermMetaEntryM.maybeFrequency, hd] at hmap

/-- Example term-meta entry with a `Detailed` frequency payload whose
`value` field is `some 8`. -/
def detailedMetaEntryEx : TermMetaEntryM :=
  ⟨"打", "freq",
    .Frequency (.Detailed ⟨some 8, some "8!", some "だ", some (JSONValue.num 8)⟩)⟩

/-- Witness for C10 at a concrete Detailed payload: the materialized data
`⟨"打", some "だ", none, some "8!"⟩` (whose `value` is `none` although the
payload's `value` field was `some 8`) satisfies the theorem's conclusion. -/
theorem frequency_materialization_witness :
    ∃ e ∈ [detailedMetaEntryEx],
      e.term = (⟨"打", some "だ", none, some "8!"⟩ : FrequencyDataRes).term ∧
      ((∃ n : Int, e.data = .Frequency (.SimpleNumber n) ∧
          (⟨"打", some "だ", none, some "8!"⟩ : FrequencyDataRes).value = some n ∧
          (⟨"打", some "だ", none, some "8!"⟩ : FrequencyDataRes).displayValue = none ∧
          (⟨"打", some "だ", none, some "8!"⟩ : FrequencyDataRes).reading = none) ∨
       (∃ s : String, e.data = .Frequency (.SimpleString s) ∧
          (⟨"打", some "だ", none, some "8!"⟩ : FrequencyDataRes).value = none ∧
          (⟨"打", some "だ", none, some "8!"⟩ : FrequencyDataRes).displayValue = some s ∧
          (⟨"打", some "だ", none, some "8!"⟩ : FrequencyDataRes).reading = none) ∨
       (∃ det : FrequencyDetailsM, e.data = .Frequency (.Detailed det) ∧
          (⟨"打", some "だ", none, some "8!"⟩ : FrequencyDataRes).value = none ∧
          (⟨"打", some "だ", none, some "8!"⟩ : FrequencyDataRes).displayValue =
            det.displayValue ∧
          (⟨"打", some "だ", none, some "8!"⟩ : FrequencyDataRes).reading =
            det.reading)) :=
  frequency_materialization [detailedMetaEntryEx]
    ⟨"打", some "だ", none, some "8!"⟩
    (by simp [materializeFreq, TermMetaEntryM.maybeFrequency,
      detailedMetaEntryEx])

/-! ### Morphology adapter (`jreader-service/src/mecab.rs`) -/

/-- A token produced by the external analyzer (vibrato): surface string and
raw feature string.  The analyzer's contract is that tokens tile the input
text in order, so character spans are recovered from the surfaces. -/
structure RawToken where
  surface : String
  feature : String

/-- Split a character list on `,` (the semantics of Rust `str::split(',')`:
the empty string yields one empty field). -/
def splitFieldsAux : List Char → List Char → List String
  | [], acc => [String.mk acc.reverse]
  | c :: rest, acc =>
    if c = ',' then String.mk acc.reverse :: splitFieldsAux rest []
    else splitFieldsAux rest (c :: acc)

/-- The field list built by `TokenFeature::from_feature_string`: split on
`,`, with `"*"` becoming absent. -/
def parseFeatureFields (featureString : String) : List (Option String) :=
  (splitFieldsAux featureString.toList []).map
    (fun f => if f == "*" then none else some f)

/-- `TokenFeature::from_feature_string` (mecab.rs 30-55); `none` models the
out-of-bounds write when the feature string has more than 9 fields. -/
def fromFeatureString (surfaceForm featureString : String) :
    Option TokenFeature :=
  let fields := parseFeatureFields featureString
  if fields.length > 9 then none
  else
    let padded := fields ++ List.replicate (9 - fields.length) none
    some { surfaceForm := some surfaceForm
           pos := padded.getD 0 none
           posSubtype1 := padded.getD 1 none
           posSubtype2 := padded.getD 2 none
           posSubtype3 := padded.getD 3 none
           conjugationType := padded.getD 4 none
           conjugationForm := padded.getD 5 none
           dictionaryForm := padded.getD 6 none
           reading := padded.getD 7 none
           pronunciation := padded.getD 8 none }

/-- The noun-noun compound loop (mecab.rs 107-128): extend the compound
surface while following tokens are nouns, emitting one candidate per grown
prefix. -/
def nounCompounds (base : TokenFeature) : List RawToken → String →
    Option (List TokenFeature)
  | [], _ => some []
  | nt :: rest, surfaceAcc =>
    match fromFeatureString nt.surface nt.feature with
    | none => none
    | some nf =>
      if nf.pos == some "名詞" then
        match nounCompounds base rest (surfaceAcc ++ nt.surface) with
        | none => none
        | some more =>
          some ({ base with
              surfaceForm := some (surfaceAcc ++ nt.surface)
              dictionaryForm := some (surfaceAcc ++ nt.surface) } :: more)
      else some []

/-- The counter/particle + verb compound (mecab.rs 76-106). -/
def verbCompound (t : RawToken) (feature : TokenFeature) :
    List RawToken → Option (List TokenFeature)
  | [] => some []
  | nt :: _ =>
    match fromFeatureString nt.surface nt.feature with
    | none => none
    | some nf =>
      if nf.pos == some "動詞" then
        some [{ feature with
            surfaceForm := some (t.surface ++ nt.surface)
            dictionaryForm := some ((feature.dictionaryForm.getD t.surface) ++
              (nf.dictionaryForm.getD nt.surface)) }]
      else some []

/-- The main loop of `analyze_tokens` (mecab.rs 66-134): for the token whose
character span contains `position`, emit compound candidates then the base
token; other tokens contribute nothing. -/
def analyzeEntriesAux (position : Nat) : Nat → List RawToken →
    Option (List TokenFeature)
  | _, [] => some []
  | startChar, t :: rest =>
    match
      (if startChar ≤ position ∧ position < startChar + t.surface.length then
        match fromFeatureString t.surface t.feature with
        | none => none
        | some feature =>
          match
            (if feature.pos == some "詞" then verbCompound t feature rest
             else if feature.pos == some "名詞" then
               nounCompounds feature rest t.surface
             else some []) with
          | none => none
          | some compounds => some (compounds ++ [feature])
      else some []) with
    | none => none
    | some here =>
      match analyzeEntriesAux position (startChar + t.surface.length) rest with
      | none => none
      | some more => some (here ++ more)

/-- The sort key of mecab.rs line 137:
`entry.surface_form.as_ref().map_or(0, |s| s.len())` (byte length). -/
def surfaceLen (f : TokenFeature) : Nat :=
  (f.surfaceForm.map String.utf8ByteSize).getD 0

/-- Insertion into a list sorted by decreasing `surfaceLen`; the stable
insertion sort below models `sort_by_key(Reverse(len))`. -/
def insertDescBySurfaceLen (a : TokenFeature) :
    List TokenFeature → List TokenFeature
  | [] => [a]
  | b :: rest =>
    if surfaceLen b < surfaceLen a then a :: b :: rest
    else b :: insertDescBySurfaceLen a rest

/-- Stable sort by decreasing `surfaceLen`. -/
def sortDescBySurfaceLen : List TokenFeature → List TokenFeature
  | [] => []
  | a :: rest => insertDescBySurfaceLen a (sortDescBySurfaceLen rest)

/-- `analyze_tokens` (mecab.rs 58-140). -/
def analyzeTokens (tokens : List RawToken) (position : Nat) :
    Option (List TokenFeature) :=
  (analyzeEntriesAux position 0 tokens).map sortDescBySurfaceLen

lemma mem_insertDescBySurfaceLen (a x : TokenFeature)
    (l : List TokenFeature) (h : x ∈ insertDescBySurfaceLen a l) :
    x = a ∨ x ∈ l := by
  induction l with
  | nil => simp [insertDescBySurfaceLen] at h; exact Or.inl h
  | cons b rest ih =>
    simp only [insertDescBySurfaceLen] at h
    by_cases hc : surfaceLen b < surfaceLen a
    · rw [if_pos hc] at h
      rcases List.mem_cons.mp h with h1 | h1
      · exact Or.inl h1
      · exact Or.inr h1
    · rw [if_neg hc] at h
      rcases List.mem_cons.mp h with h1 | h1
      · exact Or.inr (h1 ▸ List.mem_cons_self _ _)
      · rcases ih h1 with h2 | h2
        · exact Or.inl h2
        · exact Or.inr (List.mem_cons_of_mem _ h2)

lemma sorted_insertDescBySurfaceLen (a : TokenFeature) (l : List TokenFeature)
    (h : l.Sorted (fun x y => surfaceLen y ≤ surfaceLen x)) :
    (insertDescBySurfaceLen a l).Sorted
      (fun x y => surfaceLen y ≤ surfaceLen x) := by
  induction l with
  | nil => simp [insertDescBySurfaceLen]
  | cons b rest ih =>
    rw [List.sorted_cons] at h
    obtain ⟨hb, hrest⟩ := h
    simp only [insertDescBySurfaceLen]
    by_cases hc : surfaceLen b < surfaceLen a
    · rw [if_pos hc, List.sorted_cons]
      refine ⟨?_, List.sorted_cons.mpr ⟨hb, hrest⟩⟩
      intro x hx
      rcases List.mem_cons.mp hx with h1 | h1
      · exact h1 ▸ Nat.le_of_lt hc
      · exact Nat.le_trans (hb x h1) (Nat.le_of_lt hc)
    · rw [if_neg hc, List.sorted_cons]
      refine ⟨?_, ih hrest⟩
      intro x hx
      rcases mem_insertDescBySurfaceLen a x _ hx with h1 | h1
      · exact h1 ▸ Nat.le_of_not_lt hc
      · exact hb x h1
lemma sorted_sortDescBySurfaceLen (l : List TokenFeature) :
    (sortDescBySurfaceLen l).Sorted (fun x y => surfaceLen y ≤ surfaceLen x) := by
  induction l with
  | nil => simp [sortDescBySurfaceLen]
  | cons a rest ih =>
    exact sorted_insertDescBySurfaceLen a _ ih

/-- C8. Candidate ordering: for any token stream and cursor position, the
candidate list returned by `analyze_tokens` is sorted in descending order of
surface-form length (longer compound candidates precede the base token). -/
theorem analyze_tokens_sorted (tokens : List RawToken) (position : Nat)
    (res : List TokenFeature) (h : analyzeTokens tokens position = some res) :
    res.Sorted (fun a b => surfaceLen b ≤ surfaceLen a) := by
  unfold analyzeTokens at h
  cases he : analyzeEntriesAux position 0 tokens with
  | none => rw [he] at h; exact absurd h (by simp)
  | some entries =>
    rw [he] at h
    rw [Option.map_some'] at h
    have : sortDescBySurfaceLen entries = res := Option.some.inj h
    rw [← this]
    exact sorted_sortDescBySurfaceLen entries

/-- Example token stream: two adjacent nouns. -/
def nounTokensEx : List RawToken :=
  [⟨"日本", "名詞,*,*,*,*,*,日本,ニホン,ニホン"⟩,
   ⟨"語", "名詞,*,*,*,*,*,語,ゴ,ゴ"⟩]

/-- Witness for C8: at position 0 in the two-noun stream the candidates are
the compound `日本語` followed by the base token `日本`, sorted descending by
surface length. -/
theorem analyze_tokens_sorted_witness :
    ([⟨some "日本語", some "名詞", none, none, none, none, none,
        some "日本語", some "ニホン", some "ニホン"⟩,
      ⟨some "日本", some "名詞", none, none, none, none, none,
        some "日本", some "ニホン", some "ニホン"⟩] :
        List TokenFeature).Sorted (fun a b => surfaceLen b ≤ surfaceLen a) :=
  analyze_tokens_sorted nounTokensEx 0 _ rfl

/-! ### Filesystem scan and archive processing
(`jreader-service/src/dict_db_scan_fs.rs`) -/

/-- The size filter of `scan_fs` (dict_db_scan_fs.rs 69-89): with
`max_size_mb` set, the archive is skipped (counted as `size_filtered`) iff
`metadata.len() / (1024 * 1024) > max_size_mb` — integer division. -/
def sizeFilterSkips (maxSizeMb : Option Nat) (fileLenBytes : Nat) : Bool :=
  match maxSizeMb with
  | some maxSize => fileLenBytes / (1024 * 1024) > maxSize
  | none => false

/-- C7 counterexample: a file of 10 MiB + 1 byte exceeds a 10-megabyte
ceiling, but the scan does not skip it, because the code compares the
truncated whole-mebibyte count. -/
theorem size_filter_counterexample :
    10 * 1048576 + 1 > 10 * 1048576 ∧
    sizeFilterSkips (some 10) (10 * 1048576 + 1) = false :=
  ⟨by norm_num, by norm_num [sizeFilterSkips]⟩

/-- C7 amended: the scan skips a regular `.zip` file iff the truncated
whole-mebibyte count of its size exceeds `max_size_mb` — equivalently, iff
its size is at least `(max_size_mb + 1)` MiB; an archive of exactly 11 MiB
is skipped under `max_size_mb = 10`, and nothing is size-filtered when the
ceiling is unset. -/
theorem size_filter_spec (m len : Nat) :
    (sizeFilterSkips (some m) len = true ↔ (m + 1) * (1024 * 1024) ≤ len) ∧
    sizeFilterSkips none len = false ∧
    sizeFilterSkips (some 10) (11 * 1048576) = true := by
  refine ⟨?_, rfl, by norm_num [sizeFilterSkips]⟩
  simp only [sizeFilterSkips, gt_iff_lt, decide_eq_true_eq]
  rw [Nat.lt_iff_add_one_le, Nat.le_div_iff_mul_le (by norm_num)]

/-- An uploaded archive as seen by `process_archive`: the parse status of
`index.json` (`none`: entry missing or unreadable, `some none`: JSON did not
parse as `DictionaryIndex`, `some (some idx)`: parsed), and the decoded JSON
entries of the shard files of each schema prefix, in archive order. -/
structure ArchiveM where
  indexJson : Option (Option DictionaryIndexM)
  termShards : List (List JSONValue)
  tagShards : List (List JSONValue)
  termMetaShards : List (List JSONValue)
  kanjiShards : List (List JSONValue)
  kanjiMetaShards : List (List JSONValue)

/-- The per-schema stores created by a successful `process_archive`. -/
structure ProcessedDict where
  index : DictionaryIndexM
  termStore : List (String × List JSONValue)
  tagStore : List (String × List JSONValue)
  termMetaStore : List (String × List JSONValue)
  kanjiStore : List (String × List JSONValue)
  kanjiMetaStore : List (String × List JSONValue)

/-- Result of `process_archive`: the stores, an error, or a panic. -/
inductive ProcessResult where
  | ok (d : ProcessedDict) : ProcessResult
  | perr (msg : String) : ProcessResult
  | ppanic : ProcessResult

/-- `process_schema` (dict_db_scan_fs.rs 254-299): merge the schema's shard
entries, group by first field, and when non-empty bulk-insert into a fresh
store (an empty grouping creates no db file; both that case and the created
empty store are modelled by the empty row list).  `none` models the grouping
panic on an entry without a string first element. -/
def processSchema (shards : List (List JSONValue)) :
    Option (List (String × List JSONValue)) :=
  match fromJson shards.flatten with
  | none => none
  | some grouped =>
    some (if grouped.length > 0 then insertAll grouped [] else [])

/-- `process_archive` (dict_db_scan_fs.rs 175-252) on a fresh destination
directory.  The index is extracted and parsed, but `DictionaryIndex::validate`
is never invoked: a parsed index proceeds straight to schema processing. -/
def processArchive (a : ArchiveM) : ProcessResult :=
  match a.indexJson with
  | none => .perr "index.json missing"
  | some none => .perr "index.json did not parse"
  | some (some idx) =>
    match processSchema a.termShards with
    | none => .ppanic
    | some termStore =>
      match processSchema a.tagShards with
      | none => .ppanic
      | some tagStore =>
        match processSchema a.termMetaShards with
        | none => .ppanic
        | some termMetaStore =>
          match processSchema a.kanjiShards with
          | none => .ppanic
          | some kanjiStore =>
            match processSchema a.kanjiMetaShards with
            | none => .ppanic
            | some kanjiMetaStore =>
              .ok ⟨idx, termStore, tagStore, termMetaStore, kanjiStore,
                kanjiMetaStore⟩

/-- Example index that fails validation: format 4. -/
def invalidFormatIndexEx : DictionaryIndexM :=
  { plainIndexEx "T" "v1" with format := some 4 }

/-- Example archive whose index parses but fails validation, with one term
shard. -/
def invalidArchiveEx : ArchiveM :=
  ⟨some (some invalidFormatIndexEx),
   [[JSONValue.arr [.str "打", .str "だ"]]], [], [], [], []⟩

/-- C6. `process_archive` does not validate the parsed index: an archive
whose `index.json` parses as a `DictionaryIndex` that fails
`DictionaryIndex::validate` (here: format 4) is still fully processed and
its stores are created — it is not rejected. -/
theorem process_archive_skips_validation :
    DictionaryIndexM.validate invalidFormatIndexEx =
      .error "Format must be 1, 2, or 3" ∧
    processArchive invalidArchiveEx =
      .ok ⟨invalidFormatIndexEx,
        [("打", [JSONValue.arr [.str "打", .str "だ"]])], [], [], [], []⟩ :=
  ⟨rfl, rfl⟩

end JReader
